import Mathlib

/-!
# Expense tracker (`src/App.js`): ledger state, derived totals and export adapters

A shallow embedding of the `ExpenseTracker` component.  React state hooks become
fields of an explicit `State`; every event handler becomes a pure function on it.

A JavaScript number is `NaN`, one of the two infinities, or a finite value carried as
a rational.  The arithmetic is a parameter: `Arith.binary64` rounds every result to the
nearest IEEE 754 double, ties to even, as the engine does; `Arith.exact` rounds nothing
and is used for what is stated over exact arithmetic.  The two zeros are one value.
JavaScript strings are Lean strings (sequences of code points instead of UTF-16 code
units).
-/

namespace ExpenseTracker

/-! ## JavaScript numbers -/

/-- A JavaScript Number value, the finite ones carried as rationals. -/
inductive JSNum where
  | nan : JSNum
  | posInf : JSNum
  | negInf : JSNum
  | fin : ℚ → JSNum
  deriving DecidableEq

namespace JSNum

/-- Unary minus (Number::unaryMinus). -/
def neg : JSNum → JSNum
  | nan => nan
  | posInf => negInf
  | negInf => posInf
  | fin a => fin (-a)

/-- The relational operator `x < y` on numbers: false as soon as one side is `NaN`. -/
def lt : JSNum → JSNum → Bool
  | nan, _ => false
  | _, nan => false
  | posInf, _ => false
  | _, negInf => false
  | _, posInf => true
  | negInf, _ => true
  | fin a, fin b => decide (a < b)

/-- The relational operator `x > y` is `y < x` with the operands swapped. -/
def gt (x y : JSNum) : Bool := lt y x

/-- Tests whether the value is finite (what `Number.isFinite` answers). -/
def isFinite : JSNum → Bool
  | fin _ => true
  | _ => false

/-- Tests whether a finite value is an integer multiple of `2 ^ (-1074)`, the spacing of
the smallest doubles; every finite double is one. -/
def onGrid : JSNum → Bool
  | fin q => decide (q.den ∣ 2 ^ 1074)
  | _ => true

end JSNum

/-! ## Rounding to binary64 -/

/-- The integer `⌊log₂ n⌋` of a positive `n`, computed in at most `fuel` halvings. -/
def log2Floor : Nat → Nat → Nat
  | 0, _ => 0
  | fuel + 1, n => if n < 2 then 0 else log2Floor fuel (n / 2) + 1

/-- The integer `⌊log₂ (n / d)⌋`, for positive `n` and `d`. -/
def floorLog2 (n d : Nat) : Int :=
  let l : Int := (log2Floor n n : Int) - (log2Floor d d : Int)
  if d * 2 ^ l.toNat ≤ n * 2 ^ (-l).toNat then l else l - 1

/-- The integer nearest to `n / d`, the even one of the two when `n / d` is halfway. -/
def roundHalfEven (n d : Nat) : Nat :=
  let m := n / d
  let r := n % d
  if 2 * r < d then m else if d < 2 * r then m + 1 else if m % 2 = 0 then m else m + 1

/-- The double nearest to the positive rational `n / d`, ties to even.  With `e` the
exponent of the last place (53 significant bits, and never below `-1074`, where the
subnormal doubles lie) the significand is `n / d / 2 ^ e` rounded to an integer; a result
of `2 ^ 1024` or more is `Infinity`. -/
def roundPositive (n d : Nat) : JSNum :=
  let e : Int := max (floorLog2 n d - 52) (-1074)
  let m := roundHalfEven (n * 2 ^ (-e).toNat) (d * 2 ^ e.toNat)
  if 2 ^ 1024 * 2 ^ (-e).toNat ≤ m * 2 ^ e.toNat then JSNum.posInf
  else JSNum.fin (mkRat ((m * 2 ^ e.toNat : Nat) : Int) (2 ^ (-e).toNat))

/-- The double nearest to a rational (round to nearest, ties to even, overflow to an
infinity). -/
def roundBinary64 (q : ℚ) : JSNum :=
  if q.num = 0 then JSNum.fin 0
  else if 0 < q.num then roundPositive q.num.natAbs q.den
  else JSNum.neg (roundPositive q.num.natAbs q.den)

/-- The arithmetic results are computed in. -/
inductive Arith where
  | exact : Arith
  | binary64 : Arith
  deriving DecidableEq

/-- The number an exact result becomes: itself, or the nearest double. -/
def Arith.round : Arith → ℚ → JSNum
  | Arith.exact, q => JSNum.fin q
  | Arith.binary64, q => roundBinary64 q

namespace JSNum

/-- Numeric `+` (ECMAScript Number::add). -/
def add (ar : Arith) : JSNum → JSNum → JSNum
  | nan, _ => nan
  | _, nan => nan
  | posInf, negInf => nan
  | negInf, posInf => nan
  | posInf, _ => posInf
  | _, posInf => posInf
  | negInf, _ => negInf
  | _, negInf => negInf
  | fin a, fin b => ar.round (a + b)

/-- Numeric `-` (Number::subtract is `x + (-y)`). -/
def sub (ar : Arith) (x y : JSNum) : JSNum := add ar x (neg y)

end JSNum

/-! ## Reading numbers from text: `parseFloat` -/

/-- ECMAScript WhiteSpace and LineTerminator code points, the ones `TrimString` strips. -/
def isJSWhiteSpace (c : Char) : Bool :=
  let n := c.toNat
  n = 0x09 || n = 0x0A || n = 0x0B || n = 0x0C || n = 0x0D || n = 0x20 || n = 0xA0 ||
  n = 0x1680 || (0x2000 ≤ n && n ≤ 0x200A) || n = 0x2028 || n = 0x2029 || n = 0x202F ||
  n = 0x205F || n = 0x3000 || n = 0xFEFF

/-- Tests for a DecimalDigit `0`..`9`. -/
def isDecimalDigit (c : Char) : Bool := 48 ≤ c.toNat && c.toNat ≤ 57

/-- Reads the longest run of decimal digits at the head of the text: the value read so
far is `acc`, the result is the value, the number of digits consumed and the rest. -/
def takeDigits : List Char → Nat → Nat → Nat × Nat × List Char
  | [], acc, cnt => (acc, cnt, [])
  | c :: cs, acc, cnt =>
    if isDecimalDigit c then takeDigits cs (acc * 10 + (c.toNat - 48)) (cnt + 1)
    else (acc, cnt, c :: cs)

/-- An optional ExponentPart at the head of the text: `e` or `E`, an optional sign and at
least one digit.  Returns the exponent and the rest; when the text does not begin with a
complete ExponentPart nothing is consumed and the exponent is `0`. -/
def takeExponent (cs : List Char) : Int × List Char :=
  match cs with
  | e :: rest =>
    if e = 'e' || e = 'E' then
      match rest with
      | '+' :: ds =>
        match takeDigits ds 0 0 with
        | (v, k, r) => if k = 0 then (0, cs) else ((v : Int), r)
      | '-' :: ds =>
        match takeDigits ds 0 0 with
        | (v, k, r) => if k = 0 then (0, cs) else (-(v : Int), r)
      | ds =>
        match takeDigits ds 0 0 with
        | (v, k, r) => if k = 0 then (0, cs) else ((v : Int), r)
    else (0, cs)
  | [] => (0, cs)

/-- The rational `m * 10 ^ e`. -/
def scale10 (m : Nat) (e : Int) : ℚ :=
  match e with
  | Int.ofNat k => (m * 10 ^ k : Nat)
  | Int.negSucc k => mkRat m (10 ^ (k + 1))

/-- The longest prefix that is a StrUnsignedDecimalLiteral, as the number it denotes
together with the unread rest; `none` when no prefix is one. -/
def parseUnsigned (ar : Arith) (cs : List Char) : Option (JSNum × List Char) :=
  match cs with
  | 'I' :: 'n' :: 'f' :: 'i' :: 'n' :: 'i' :: 't' :: 'y' :: rest => some (JSNum.posInf, rest)
  | _ =>
    match takeDigits cs 0 0 with
    | (ip, ik, r1) =>
      match r1 with
      | '.' :: r2 =>
        match takeDigits r2 0 0 with
        | (fp, fk, r3) =>
          if ik = 0 && fk = 0 then none
          else
            match takeExponent r3 with
            | (ex, r4) => some (ar.round (scale10 (ip * 10 ^ fk + fp) (ex - fk)), r4)
      | _ =>
        if ik = 0 then none
        else
          match takeExponent r1 with
          | (ex, r4) => some (ar.round (scale10 ip ex), r4)

/-- The longest prefix that is a StrDecimalLiteral (an optional sign and an unsigned
literal), as the number it denotes together with the unread rest. -/
def parseSigned (ar : Arith) (cs : List Char) : Option (JSNum × List Char) :=
  match cs with
  | '+' :: rest => parseUnsigned ar rest
  | '-' :: rest => (parseUnsigned ar rest).map (fun p => (JSNum.neg p.1, p.2))
  | _ => parseUnsigned ar cs

/-- The global `parseFloat`: strips leading white space, reads the longest prefix that
is a StrDecimalLiteral and returns its value; `NaN` when there is no such prefix. -/
def parseFloat (ar : Arith) (s : String) : JSNum :=
  match parseSigned ar (s.data.dropWhile isJSWhiteSpace) with
  | some (v, _) => v
  | none => JSNum.nan

/-! ## Coercing values to numbers: `ToNumber` -/

/-- Value of a digit in radix 2, 8 or 16, `none` when the character is no such digit. -/
def radixDigit (radix : Nat) (c : Char) : Option Nat :=
  let n := c.toNat
  let v : Option Nat :=
    if 48 ≤ n && n ≤ 57 then some (n - 48)
    else if 97 ≤ n && n ≤ 102 then some (n - 87)
    else if 65 ≤ n && n ≤ 70 then some (n - 55)
    else none
  match v with
  | some d => if d < radix then some d else none
  | none => none

/-- Reads a text made only of digits of the radix; `none` on any other character. -/
def readRadix (radix : Nat) : List Char → Nat → Option Nat
  | [], acc => some acc
  | c :: cs, acc =>
    match radixDigit radix c with
    | some d => readRadix radix cs (acc * radix + d)
    | none => none

/-- A NonDecimalIntegerLiteral: `0b`, `0o` or `0x` (either case) and at least one digit. -/
def parseNonDecimal (ar : Arith) (cs : List Char) : Option JSNum :=
  match cs with
  | '0' :: p :: d :: ds =>
    let radix : Nat :=
      if p = 'b' || p = 'B' then 2
      else if p = 'o' || p = 'O' then 8
      else if p = 'x' || p = 'X' then 16
      else 0
    if radix = 0 then none
    else (readRadix radix (d :: ds) 0).map (fun (v : Nat) => ar.round (v : ℚ))
  | _ => none

/-- Strips white space at both ends (TrimString with `start+end`). -/
def trimBoth (cs : List Char) : List Char :=
  ((cs.dropWhile isJSWhiteSpace).reverse.dropWhile isJSWhiteSpace).reverse

/-- StringToNumber: the empty or all-blank text is `0`, a complete StrNumericLiteral is
its value, everything else is `NaN`. -/
def stringToNumber (ar : Arith) (s : String) : JSNum :=
  match trimBoth s.data with
  | [] => JSNum.fin 0
  | cs =>
    match parseNonDecimal ar cs with
    | some v => v
    | none =>
      match parseSigned ar cs with
      | some (v, []) => v
      | _ => JSNum.nan

/-- The values the `income` hook holds: the number it starts with, or the text of the
input element once the field has been edited (`setIncome(e.target.value)`). -/
inductive JSValue where
  | number : JSNum → JSValue
  | string : String → JSValue
  deriving DecidableEq

/-- ToNumber, applied by the arithmetic and relational operators to their operands. -/
def toNumber (ar : Arith) : JSValue → JSNum
  | JSValue.number n => n
  | JSValue.string s => stringToNumber ar s

/-! ## The number fields -/

/-- A valid floating-point number of HTML without its sign: digits, or digits (possibly
none) with a point and at least one digit after it, then an optional complete exponent and
nothing else. -/
def isValidUnsignedFloat (cs : List Char) : Bool :=
  match takeDigits cs 0 0 with
  | (_, ik, r1) =>
    match r1 with
    | '.' :: r2 =>
      match takeDigits r2 0 0 with
      | (_, fk, r3) => decide (fk ≠ 0) && decide ((takeExponent r3).2 = [])
    | _ => decide (ik ≠ 0) && decide ((takeExponent r1).2 = [])

/-- A valid floating-point number of HTML: an optional `-` and an unsigned one. -/
def isValidFloatingPointNumber (cs : List Char) : Bool :=
  match cs with
  | '-' :: rest => isValidUnsignedFloat rest
  | _ => isValidUnsignedFloat cs

/-- The `value` of an `<input type="number">` after the text `typed` was entered: the text
when it is a valid floating-point number, the empty string otherwise (the value
sanitization algorithm of the Number state). -/
def numberFieldValue (typed : String) : String :=
  if isValidFloatingPointNumber typed.data then typed else ""

/-! ## Printing numbers: `Number::toString` -/

/-- The least `n`, searched upwards from the given start for `fuel` steps, with
`num < den * 10 ^ n`. -/
def exponentUp (num den : Nat) : Nat → Nat → Nat
  | 0, n => n
  | fuel + 1, n => if num < den * 10 ^ n then n else exponentUp num den fuel (n + 1)

/-- The greatest `j`, searched upwards from the given start for `fuel` steps, with
`num * 10 ^ j < den`. -/
def exponentDown (num den : Nat) : Nat → Nat → Nat
  | 0, j => j
  | fuel + 1, j => if num * 10 ^ (j + 1) < den then exponentDown num den fuel (j + 1) else j

/-- The integer `n` with `10 ^ (n - 1) ≤ num / den < 10 ^ n`, for positive `num`, `den`. -/
def decimalExponent (num den : Nat) : Int :=
  if den ≤ num then (exponentUp num den (log2Floor num num + 2) 1 : Int)
  else -(exponentDown num den (log2Floor den den + 2) 0 : Int)

/-- A `k`-digit integer `s` with `s * 10 ^ (n - k)` read back as the positive value `q`, if
there is one: of the two candidates next to `q * 10 ^ (k - n)` the one that reads back as
`q`, the nearer one when both do, the even one when they are equally near. -/
def digitsOfLength (ar : Arith) (q : ℚ) (n : Int) (k : Nat) : Option Nat :=
  let t : Int := (k : Int) - n
  let num := q.num.natAbs * 10 ^ t.toNat
  let den := q.den * 10 ^ (-t).toNat
  let lo := num / den
  let hi := lo + 1
  let r := num % den
  let okLo := decide (ar.round (mkRat ((lo * 10 ^ (-t).toNat : Nat) : Int) (10 ^ t.toNat)) =
    JSNum.fin q)
  let okHi := decide (ar.round (mkRat ((hi * 10 ^ (-t).toNat : Nat) : Int) (10 ^ t.toNat)) =
    JSNum.fin q)
  if okLo && okHi then
    if 2 * r < den then some lo else if den < 2 * r then some hi
    else if lo % 2 = 0 then some lo else some hi
  else if okLo then some lo
  else if okHi then some hi
  else none

/-- The shortest digits that read back as the positive value `q`: lengths are tried from
`k` upwards for `fuel` steps; when the search runs out (which it does only in exact
arithmetic on a rational with no finite decimal expansion) the digits are cut there. -/
def shortestDigits (ar : Arith) (q : ℚ) (n : Int) : Nat → Nat → Nat × Nat
  | 0, k =>
    (q.num.natAbs * 10 ^ ((k : Int) - n).toNat / (q.den * 10 ^ (-((k : Int) - n)).toNat), k)
  | fuel + 1, k =>
    match digitsOfLength ar q n k with
    | some s => (s, k)
    | none => shortestDigits ar q n fuel (k + 1)

/-- Number::toString for a positive finite value.  With `s` the shortest digits that read
back as the value, `k` their number and `n` the position of the decimal point
(`s * 10 ^ (n - k)` reads back as the value), the text is plain digits for `k ≤ n ≤ 21`,
digits around a point for `0 < n ≤ 21`, `0.00ddd` for `-6 < n ≤ 0`, and exponent form
otherwise. -/
def positiveToString (ar : Arith) (q : ℚ) : String :=
  let n0 := decimalExponent q.num.natAbs q.den
  let sk := shortestDigits ar q n0 (log2Floor q.num.natAbs q.num.natAbs + log2Floor q.den q.den + 19) 1
  let carried : Bool := decide (sk.1 = 10 ^ sk.2)
  let digits := if carried then ['1'] else Nat.toDigits 10 sk.1
  let k : Int := digits.length
  let n : Int := if carried then n0 + 1 else n0
  if k ≤ n ∧ n ≤ 21 then
    String.mk (digits ++ List.replicate (n - k).toNat '0')
  else if 0 < n ∧ n ≤ 21 then
    String.mk (digits.take n.toNat ++ '.' :: digits.drop n.toNat)
  else if -6 < n ∧ n ≤ 0 then
    String.mk ('0' :: '.' :: List.replicate (-n).toNat '0' ++ digits)
  else
    let ex := n - 1
    let tail := 'e' :: (if ex < 0 then '-' else '+') :: Nat.toDigits 10 ex.natAbs
    match digits with
    | [d] => String.mk (d :: tail)
    | d :: ds => String.mk (d :: '.' :: ds ++ tail)
    | [] => String.mk tail

/-- Number::toString in radix 10, the conversion a template literal applies. -/
def numberToString (ar : Arith) : JSNum → String
  | JSNum.nan => "NaN"
  | JSNum.posInf => "Infinity"
  | JSNum.negInf => "-Infinity"
  | JSNum.fin q =>
    if q.num = 0 then "0"
    else if q.num < 0 then "-" ++ positiveToString ar (-q)
    else positiveToString ar q

/-! ## Ledger state -/

/-- One expense record, the object `newExpense` built by `addExpense`. -/
structure Expense where
  category : String
  amount : JSNum
  description : String
  date : String
  currency : String
  paymentMethod : String
  deriving DecidableEq

/-- The state hooks of the component, in declaration order.  `userExpenses` is an object
keyed by user name, kept as an association list in property-insertion order. -/
structure State where
  expenses : List Expense
  income : JSValue
  category : String
  amount : String
  description : String
  currency : String
  darkMode : Bool
  user : String
  userExpenses : List (String × List Expense)
  paymentMethod : String
  deriving DecidableEq

/-- The state the hooks are initialised with. -/
def initialState : State :=
  { expenses := []
    income := JSValue.number (JSNum.fin 0)
    category := ""
    amount := ""
    description := ""
    currency := "INR"
    darkMode := false
    user := "User1"
    userExpenses := []
    paymentMethod := "Cash" }

/-- Property read `obj[key] || []`: the list stored under the key, the empty list when
the key is absent. -/
def lookupOrEmpty (obj : List (String × List Expense)) (key : String) : List Expense :=
  match obj with
  | [] => []
  | (k, v) :: rest => if k = key then v else lookupOrEmpty rest key

/-- Object spread followed by a computed key, `{ ...obj, [key]: value }`: an existing
property keeps its place and takes the new value, a new one goes to the end. -/
def setProperty (obj : List (String × List Expense)) (key : String) (value : List Expense) :
    List (String × List Expense) :=
  match obj with
  | [] => [(key, value)]
  | (k, v) :: rest =>
    if k = key then (k, value) :: rest else (k, v) :: setProperty rest key value

/-- The handler `addExpense`.  `today` is the text `new Date().toLocaleDateString()`
evaluates to at the call.  `!category` and `!amount` are tests on strings, true exactly
on the empty string. -/
def addExpense (ar : Arith) (today : String) (s : State) : State :=
  if s.category = "" || s.amount = "" then s
  else
    let newExpense : Expense :=
      { category := s.category
        amount := parseFloat ar s.amount
        description := s.description
        date := today
        currency := s.currency
        paymentMethod := s.paymentMethod }
    { s with
      expenses := s.expenses ++ [newExpense]
      userExpenses :=
        setProperty s.userExpenses s.user (lookupOrEmpty s.userExpenses s.user ++ [newExpense])
      category := ""
      amount := ""
      description := "" }

/-- The callback form of `Array.prototype.filter`: keeps the elements on which the
predicate, given the element and its position, holds; positions count from `i`. -/
def filterIdx {α : Type} (p : α → Nat → Bool) : List α → Nat → List α
  | [], _ => []
  | a :: as, i => if p a i then a :: filterIdx p as (i + 1) else filterIdx p as (i + 1)

/-- The handler `removeExpense`: `expenses.filter((_, i) => i !== index)`. -/
def removeExpense (index : Int) (s : State) : State :=
  { s with expenses := filterIdx (fun _ i => decide ((i : Int) ≠ index)) s.expenses 0 }

/-! ## Derived totals -/

/-- The derived value `totalSpent`: `expenses.reduce((sum, expense) => sum + expense.amount, 0)`. -/
def totalSpent (ar : Arith) (expenses : List Expense) : JSNum :=
  expenses.foldl (fun sum expense => JSNum.add ar sum expense.amount) (JSNum.fin 0)

/-- The derived value `remainingBalance`: `income - totalSpent`. -/
def remainingBalance (ar : Arith) (income : JSValue) (expenses : List Expense) : JSNum :=
  JSNum.sub ar (toNumber ar income) (totalSpent ar expenses)

/-- The class test of the balance line, `remainingBalance < 0`: true selects
`text-danger`, false `text-success`. -/
def balanceIsNegative (ar : Arith) (income : JSValue) (expenses : List Expense) : Bool :=
  JSNum.lt (remainingBalance ar income expenses) (JSNum.fin 0)

/-! ## Export adapters -/

/-- `Array.prototype.forEach` with a callback that updates a local state and is given the
element and its position; positions count from `i`. -/
def forEachIdx {α σ : Type} (f : σ → α → Nat → σ) : List α → Nat → σ → σ
  | [], _, st => st
  | a :: as, i, st => forEachIdx f as (i + 1) (f st a i)

/-- The header text `csvContent` starts with. -/
def csvHeader : String := "Category,Amount,Description,Date,Currency,Payment Method\n"

/-- The text `csvContent` once the `forEach` of `exportToCSV` has run. -/
def csvContent (ar : Arith) (expenses : List Expense) : String :=
  forEachIdx
    (fun csv exp _ =>
      csv ++ (exp.category ++ "," ++ numberToString ar exp.amount ++ "," ++ exp.description ++ "," ++
        exp.date ++ "," ++ exp.currency ++ "," ++ exp.paymentMethod ++ "\n"))
    expenses 0 csvHeader

/-- What is handed to `saveAs`: the blob text, its type and the file name. -/
structure Download where
  content : String
  mimeType : String
  fileName : String
  deriving DecidableEq

/-- The handler `exportToCSV`. -/
def exportToCSV (ar : Arith) (s : State) : Download :=
  { content := csvContent ar s.expenses
    mimeType := "text/csv;charset=utf-8;"
    fileName := "expenses.csv" }

/-- The calls a jsPDF document can receive that matter here. -/
inductive DocCall where
  | text : String → JSNum → JSNum → DocCall
  | addPage : DocCall
  | save : String → DocCall
  deriving DecidableEq

/-- The line `exportToPDF` writes for the record at position `index`.  The sum
`index + 1` is an integer below `2 ^ 53` for every position an array has, where the
addition of doubles is exact. -/
def pdfLine (ar : Arith) (exp : Expense) (index : Nat) : String :=
  numberToString ar (JSNum.add Arith.exact (JSNum.fin index) (JSNum.fin 1)) ++ ". " ++
    exp.category ++ " - " ++ exp.currency ++ " " ++ numberToString ar exp.amount ++ " (" ++
    exp.description ++ ") [" ++ exp.paymentMethod ++ "]"

/-- The handler `exportToPDF`, as the calls made on the document in order.  The loop
state is the calls so far and `yPos`, an integer below `2 ^ 53` for every length an array
has, where the addition of doubles is exact. -/
def exportToPDF (ar : Arith) (s : State) : List DocCall :=
  let start : List DocCall × JSNum :=
    ([DocCall.text "Expense Report" (JSNum.fin 20) (JSNum.fin 20)], JSNum.fin 30)
  let done :=
    forEachIdx
      (fun (st : List DocCall × JSNum) exp index =>
        (st.1 ++ [DocCall.text (pdfLine ar exp index) (JSNum.fin 20) st.2],
          JSNum.add Arith.exact st.2 (JSNum.fin 10)))
      s.expenses 0 start
  done.1 ++ [DocCall.save "expenses.pdf"]

/-! ## Sequences of events -/

/-- The events that change the state: texts entered in the input fields, choices of the
selects, the theme button and the two handlers. -/
inductive Event where
  | setIncome : String → Event
  | setCategory : String → Event
  | setAmount : String → Event
  | setDescription : String → Event
  | setCurrency : String → Event
  | setPaymentMethod : String → Event
  | toggleDarkMode : Event
  | addExpense : String → Event
  | removeExpense : Int → Event

/-- The state after one event.  The income and amount inputs are number fields: what
their handlers receive as `e.target.value` is the value of the field, not the text typed. -/
def step (ar : Arith) (s : State) : Event → State
  | Event.setIncome v => { s with income := JSValue.string (numberFieldValue v) }
  | Event.setCategory v => { s with category := v }
  | Event.setAmount v => { s with amount := numberFieldValue v }
  | Event.setDescription v => { s with description := v }
  | Event.setCurrency v => { s with currency := v }
  | Event.setPaymentMethod v => { s with paymentMethod := v }
  | Event.toggleDarkMode => { s with darkMode := !s.darkMode }
  | Event.addExpense today => addExpense ar today s
  | Event.removeExpense index => removeExpense index s

/-- The state after a sequence of events, starting from the initial state. -/
def run (ar : Arith) (events : List Event) : State := events.foldl (step ar) initialState

/-- An event that the totals are stated for: an `addExpense` that passes the guard with an
amount text that parses to a finite number, a `removeExpense` at a position of the
ledger, or any edit of an input. -/
def validEvent (ar : Arith) (s : State) : Event → Bool
  | Event.addExpense _ =>
    decide (s.category ≠ "") && decide (s.amount ≠ "") && (parseFloat ar s.amount).isFinite
  | Event.removeExpense index => decide (0 ≤ index) && decide (index < (s.expenses.length : Int))
  | _ => true

/-- Every event of the sequence is valid in the state it is applied to. -/
def validFrom (ar : Arith) : State → List Event → Bool
  | _, [] => true
  | s, e :: es => validEvent ar s e && validFrom ar (step ar s e) es

/-- A sequence of events that is valid from the initial state. -/
def validRun (ar : Arith) (events : List Event) : Bool := validFrom ar initialState events

/-- The rational a finite number stands for (`0` for the others). -/
def amountValue : JSNum → ℚ
  | JSNum.fin q => q
  | _ => 0

/-! ## Sample states -/

/-- The form filled in with a category, a numeric amount and a description. -/
def foodState : State :=
  { initialState with category := "Food", amount := "10", description := "lunch" }

/-- Typing a category and a number text beyond the range of doubles, then adding. -/
def overflowEvents : List Event :=
  [Event.setCategory "Food", Event.setAmount "1e400", Event.addExpense "1/1/2024"]

/-- Typing a category and a number text beyond the range of doubles. -/
def overflowTyping : List Event :=
  [Event.setCategory "Food", Event.setAmount "1e400"]

/-- Typing and adding `Food` 10 and `Bus` 5, then removing the first record. -/
def sampleEvents : List Event :=
  [Event.setCategory "Food", Event.setAmount "10", Event.addExpense "1/1/2024",
    Event.setCategory "Bus", Event.setAmount "5", Event.addExpense "1/1/2024",
    Event.removeExpense 0]

/-- The ledger of the amounts `0.1` and `0.2`, as doubles. -/
def decimalLedger : List Expense :=
  [ { category := "Tea", amount := parseFloat Arith.binary64 "0.1", description := "",
      date := "1/1/2024", currency := "INR", paymentMethod := "Cash" },
    { category := "Bus", amount := parseFloat Arith.binary64 "0.2", description := "",
      date := "1/1/2024", currency := "INR", paymentMethod := "Cash" } ]

/-- The form with a category of one space and a numeric amount. -/
def blankCategoryState : State :=
  { initialState with category := " ", amount := "5" }

/-- The form with an amount and no category. -/
def emptyCategoryState : State :=
  { initialState with amount := "5", description := "tea", currency := "USD" }

/-- The two-record ledger of the CSV example. -/
def sampleLedger : List Expense :=
  [ { category := "Food", amount := JSNum.fin 10, description := "lunch", date := "1/1/2024",
      currency := "INR", paymentMethod := "Cash" },
    { category := "Transport", amount := JSNum.fin 5, description := "", date := "1/1/2024",
      currency := "INR", paymentMethod := "Card" } ]

/-- A state holding the two-record ledger. -/
def sampleState : State := { initialState with expenses := sampleLedger }

/-! ## Rounding to binary64: what the totals need -/

/-- The halving count is the floor of the binary logarithm. -/
theorem log2Floor_spec (fuel n : Nat) (hf : n ≤ fuel) (hn : n ≠ 0) :
    2 ^ log2Floor fuel n ≤ n ∧ n < 2 ^ (log2Floor fuel n + 1) := by
  induction fuel generalizing n with
  | zero => omega
  | succ f ih =>
    unfold log2Floor
    by_cases h2 : n < 2
    · simp only [h2, if_true]
      omega
    · simp only [h2, if_false]
      obtain ⟨h1, h3⟩ := ih (n / 2) (by omega) (by omega)
      constructor
      · rw [pow_succ]; omega
      · rw [pow_succ]; omega

/-- The quotient is at least `2 ^ floorLog2`. -/
theorem floorLog2_le (n d : Nat) (hn : 0 < n) (hd : 0 < d) :
    d * 2 ^ (floorLog2 n d).toNat ≤ n * 2 ^ (-(floorLog2 n d)).toNat := by
  unfold floorLog2
  simp only []
  split_ifs with h
  · exact h
  · obtain ⟨ha, -⟩ := log2Floor_spec n n (le_refl n) (by omega)
    obtain ⟨-, hb⟩ := log2Floor_spec d d (le_refl d) (by omega)
    generalize log2Floor n n = a at ha ⊢
    generalize log2Floor d d = b at hb ⊢
    by_cases hab : b + 1 ≤ a
    · have e1 : ((a : Int) - (b : Int) - 1).toNat = a - b - 1 := by omega
      have e2 : (-((a : Int) - (b : Int) - 1)).toNat = 0 := by omega
      rw [e1, e2, pow_zero, mul_one]
      have h3 : 2 ^ (b + 1) * 2 ^ (a - b - 1) = 2 ^ a := by
        rw [← pow_add]; congr 1; omega
      have h4 : d * 2 ^ (a - b - 1) ≤ 2 ^ (b + 1) * 2 ^ (a - b - 1) :=
        Nat.mul_le_mul_right _ (le_of_lt hb)
      omega
    · have e1 : ((a : Int) - (b : Int) - 1).toNat = 0 := by omega
      have e2 : (-((a : Int) - (b : Int) - 1)).toNat = b + 1 - a := by omega
      rw [e1, e2, pow_zero, mul_one]
      have h3 : 2 ^ a * 2 ^ (b + 1 - a) = 2 ^ (b + 1) := by
        rw [← pow_add]; congr 1; omega
      have h4 : 2 ^ a * 2 ^ (b + 1 - a) ≤ n * 2 ^ (b + 1 - a) :=
        Nat.mul_le_mul_right _ ha
      omega

/-- A lower bound of the quotient by a power of two stays one for a smaller exponent. -/
theorem pow_bound_mono (n d : Nat) (e l : Int) (hle : e ≤ l)
    (h : d * 2 ^ l.toNat ≤ n * 2 ^ (-l).toNat) :
    d * 2 ^ e.toNat ≤ n * 2 ^ (-e).toNat := by
  have h1 : d * 2 ^ e.toNat ≤ d * 2 ^ l.toNat :=
    Nat.mul_le_mul_left _ (Nat.pow_le_pow_right (by norm_num) (by omega))
  have h2 : n * 2 ^ (-l).toNat ≤ n * 2 ^ (-e).toNat :=
    Nat.mul_le_mul_left _ (Nat.pow_le_pow_right (by norm_num) (by omega))
  omega

/-- Rounding to an integer never goes below the integer part. -/
theorem roundHalfEven_ge (n d : Nat) : n / d ≤ roundHalfEven n d := by
  unfold roundHalfEven
  simp only []
  split_ifs <;> omega

/-- Rounding a positive rational gives `Infinity` or a non-negative multiple of
`2 ^ (-1074)`, which is positive when the rational is at least `2 ^ (-1074)`. -/
theorem roundPositive_cases (n d : Nat) (hn : 0 < n) (hd : 0 < d) :
    roundPositive n d = JSNum.posInf ∨
      ∃ v : ℚ, roundPositive n d = JSNum.fin v ∧ 0 ≤ v ∧ v.den ∣ 2 ^ 1074 ∧
        (d ≤ n * 2 ^ 1074 → 0 < v) := by
  unfold roundPositive
  simp only []
  generalize he : max (floorLog2 n d - 52) (-1074) = e
  have he1 : -1074 ≤ e := by rw [← he]; exact le_max_right _ _
  split_ifs with hov
  · exact Or.inl rfl
  · refine Or.inr ⟨_, rfl, ?_, ?_, ?_⟩
    · rw [Rat.mkRat_eq_div]
      positivity
    · have h1 := Rat.den_dvd
        ((roundHalfEven (n * 2 ^ (-e).toNat) (d * 2 ^ e.toNat) * 2 ^ e.toNat : Nat) : Int)
        ((2 ^ (-e).toNat : Nat) : Int)
      rw [← Rat.mkRat_eq_divInt] at h1
      have h2 : (mkRat ((roundHalfEven (n * 2 ^ (-e).toNat) (d * 2 ^ e.toNat) * 2 ^ e.toNat : Nat) : Int)
          (2 ^ (-e).toNat)).den ∣ 2 ^ (-e).toNat := Int.natCast_dvd_natCast.mp h1
      exact dvd_trans h2 (pow_dvd_pow 2 (by omega))
    · intro hsmall
      have hb : d * 2 ^ e.toNat ≤ n * 2 ^ (-e).toNat := by
        rcases max_choice (floorLog2 n d - 52) (-1074) with h | h
        · rw [h] at he
          rw [← he]
          exact pow_bound_mono n d _ _ (by omega) (floorLog2_le n d hn hd)
        · rw [h] at he
          rw [← he]
          have e1 : (-1074 : Int).toNat = 0 := by omega
          have e2 : (-(-1074 : Int)).toNat = 1074 := by omega
          rw [e1, e2, pow_zero, mul_one]
          exact hsmall
      have hD : 0 < d * 2 ^ e.toNat := Nat.mul_pos hd (by positivity)
      have hm : 0 < roundHalfEven (n * 2 ^ (-e).toNat) (d * 2 ^ e.toNat) :=
        lt_of_lt_of_le (Nat.div_pos hb hD) (roundHalfEven_ge _ _)
      rw [Rat.mkRat_eq_div]
      generalize roundHalfEven (n * 2 ^ (-e).toNat) (d * 2 ^ e.toNat) = m at hm
      have hm2 : (0 : ℚ) < (m : ℚ) := by exact_mod_cast hm
      have hp : (0 : ℚ) < (2 : ℚ) ^ e.toNat := pow_pos (by norm_num) _
      have hq : (0 : ℚ) < (2 : ℚ) ^ (-e).toNat := pow_pos (by norm_num) _
      push_cast
      exact div_pos (mul_pos hm2 hp) hq

/-- Rounding never gives `NaN`. -/
theorem round_ne_nan (ar : Arith) (q : ℚ) : ar.round q ≠ JSNum.nan := by
  cases ar with
  | exact => simp [Arith.round]
  | binary64 =>
    simp only [Arith.round, roundBinary64]
    have hcase : ∀ n d : Nat, roundPositive n d ≠ JSNum.nan ∧
        JSNum.neg (roundPositive n d) ≠ JSNum.nan := by
      intro n d
      unfold roundPositive
      simp only []
      split_ifs <;> simp [JSNum.neg]
    split_ifs
    · simp
    · exact (hcase _ _).1
    · exact (hcase _ _).2

/-- Rounding to binary64 gives a multiple of `2 ^ (-1074)` when it is finite. -/
theorem roundBinary64_onGrid (q : ℚ) : (roundBinary64 q).onGrid = true := by
  unfold roundBinary64
  split_ifs with h0 hpos
  · simp [JSNum.onGrid]
  · have hn : 0 < q.num.natAbs := Int.natAbs_pos.mpr h0
    rcases roundPositive_cases q.num.natAbs q.den hn q.den_pos with h | ⟨v, hv, -, hden, -⟩
    · rw [h]; rfl
    · rw [hv]; simpa [JSNum.onGrid] using hden
  · have hn : 0 < q.num.natAbs := Int.natAbs_pos.mpr h0
    rcases roundPositive_cases q.num.natAbs q.den hn q.den_pos with h | ⟨v, hv, -, hden, -⟩
    · rw [h]; rfl
    · rw [hv]; simpa [JSNum.onGrid, JSNum.neg] using hden

/-- A rational whose denominator divides `2 ^ 1074` is an integer number of steps of
`2 ^ (-1074)`. -/
theorem exists_int_of_den_dvd (a : ℚ) (ha : a.den ∣ 2 ^ 1074) :
    ∃ k : Int, a * 2 ^ 1074 = (k : ℚ) := by
  obtain ⟨c, hc⟩ := ha
  refine ⟨a.num * (c : Int), ?_⟩
  have h1 : (a.den : ℚ) ≠ 0 := by exact_mod_cast a.den_nz
  have h2 : ((2 : ℚ) ^ 1074) = (a.den : ℚ) * (c : ℚ) := by exact_mod_cast hc
  rw [h2]
  push_cast
  rw [← mul_assoc, Rat.mul_den_eq_num]

/-- On multiples of `2 ^ (-1074)` rounding to binary64 keeps the sign: the rounded value is
below zero exactly when the exact one is. -/
theorem roundBinary64_lt_zero (q : ℚ) (hq : ∃ k : Int, q * 2 ^ 1074 = (k : ℚ)) :
    JSNum.lt (roundBinary64 q) (JSNum.fin 0) = decide (q < 0) := by
  unfold roundBinary64
  split_ifs with h0 hpos
  · have : q = 0 := Rat.zero_iff_num_zero.mpr h0
    subst this
    simp [JSNum.lt]
  · have hn : 0 < q.num.natAbs := Int.natAbs_pos.mpr h0
    have hq0 : 0 < q := Rat.num_pos.mp hpos
    rcases roundPositive_cases q.num.natAbs q.den hn q.den_pos with h | ⟨v, hv, hv0, -, -⟩
    · rw [h]; simp [JSNum.lt, not_lt.mpr (le_of_lt hq0)]
    · rw [hv]; simp [JSNum.lt, not_lt.mpr (le_of_lt hq0), hv0]
  · have hn : 0 < q.num.natAbs := Int.natAbs_pos.mpr h0
    have hneg : q.num < 0 := by omega
    have hq0 : q < 0 := Rat.num_neg.mp hneg
    obtain ⟨k, hk⟩ := hq
    have hsmall : q.den ≤ q.num.natAbs * 2 ^ 1074 := by
      have hk0 : k < 0 := by
        have : (k : ℚ) < 0 := by rw [← hk]; exact mul_neg_of_neg_of_pos hq0 (by positivity)
        exact_mod_cast this
      have hk1 : (k : ℚ) ≤ -1 := by exact_mod_cast (by omega : k ≤ -1)
      have hden : (0 : ℚ) < q.den := by exact_mod_cast q.den_pos
      have h3 : (q.num : ℚ) = q * q.den := (Rat.mul_den_eq_num q).symm
      have h4 : (q.num.natAbs : ℚ) = -(q.num : ℚ) := by
        have h6 : (q.num.natAbs : Int) = -q.num := by omega
        have h7 : ((q.num.natAbs : Int) : ℚ) = ((-q.num : Int) : ℚ) := congrArg _ h6
        rw [Int.cast_natCast, Int.cast_neg] at h7
        exact h7
      have h5 : (q.den : ℚ) ≤ (q.num.natAbs : ℚ) * 2 ^ 1074 := by
        rw [h4, h3]
        have : -(q * (q.den : ℚ)) * 2 ^ 1074 = -(q * 2 ^ 1074) * (q.den : ℚ) := by ring
        rw [this, hk]
        nlinarith
      exact_mod_cast h5
    rcases roundPositive_cases q.num.natAbs q.den hn q.den_pos with h | ⟨v, hv, -, -, hvpos⟩
    · rw [h]; simp [JSNum.lt, JSNum.neg, hq0]
    · rw [hv]; simp [JSNum.lt, JSNum.neg, hq0, hvpos hsmall]

/-! ## What the parsers return -/

/-- Negating keeps a value on the grid of doubles. -/
theorem neg_onGrid (x : JSNum) : (JSNum.neg x).onGrid = x.onGrid := by
  cases x <;> simp [JSNum.neg, JSNum.onGrid]

/-- Negating never gives `NaN` from a number. -/
theorem neg_ne_nan (x : JSNum) (h : x ≠ JSNum.nan) : JSNum.neg x ≠ JSNum.nan := by
  cases x <;> simp_all [JSNum.neg]

/-- An unsigned literal is read as `Infinity` or as a rounded rational. -/
theorem parseUnsigned_round (ar : Arith) (cs : List Char) (v : JSNum) (r : List Char)
    (h : parseUnsigned ar cs = some (v, r)) :
    v = JSNum.posInf ∨ ∃ q : ℚ, v = ar.round q := by
  unfold parseUnsigned at h
  split at h
  · simp only [Option.some.injEq, Prod.mk.injEq] at h
    exact Or.inl h.1.symm
  · split at h
    split at h
    · split at h
      split at h
      · simp at h
      · split at h
        simp only [Option.some.injEq, Prod.mk.injEq] at h
        exact Or.inr ⟨_, h.1.symm⟩
    · split at h
      · simp at h
      · split at h
        simp only [Option.some.injEq, Prod.mk.injEq] at h
        exact Or.inr ⟨_, h.1.symm⟩

/-- A signed literal is read as an infinity or as a rounded rational or its opposite. -/
theorem parseSigned_round (ar : Arith) (cs : List Char) (v : JSNum) (r : List Char)
    (h : parseSigned ar cs = some (v, r)) :
    ∃ w : JSNum, (w = JSNum.posInf ∨ ∃ q : ℚ, w = ar.round q) ∧ (v = w ∨ v = JSNum.neg w) := by
  unfold parseSigned at h
  split at h
  · exact ⟨v, parseUnsigned_round ar _ v r h, Or.inl rfl⟩
  · rw [Option.map_eq_some'] at h
    obtain ⟨⟨w, r2⟩, hw, heq⟩ := h
    simp only [Prod.mk.injEq] at heq
    exact ⟨w, parseUnsigned_round ar _ w r2 hw, Or.inr heq.1.symm⟩
  · exact ⟨v, parseUnsigned_round ar _ v r h, Or.inl rfl⟩

/-- A non-decimal literal is read as a rounded integer. -/
theorem parseNonDecimal_round (ar : Arith) (cs : List Char) (v : JSNum)
    (h : parseNonDecimal ar cs = some v) : ∃ q : ℚ, v = ar.round q := by
  unfold parseNonDecimal at h
  split at h
  · dsimp only at h
    split_ifs at h <;>
      (rw [Option.map_eq_some'] at h
       obtain ⟨n, -, hn⟩ := h
       exact ⟨_, hn.symm⟩)
  · simp at h

/-- StringToNumber in binary64 gives a value on the grid of doubles. -/
theorem stringToNumber_onGrid (s : String) :
    (stringToNumber Arith.binary64 s).onGrid = true := by
  unfold stringToNumber
  split
  · simp [JSNum.onGrid]
  · split
    · rename_i v hv
      obtain ⟨q, hq⟩ := parseNonDecimal_round _ _ _ hv
      rw [hq]
      exact roundBinary64_onGrid q
    · split
      · rename_i v hv
        obtain ⟨w, hw, hvw⟩ := parseSigned_round _ _ _ _ hv
        have hwg : w.onGrid = true := by
          rcases hw with hw | ⟨q, hq⟩
          · rw [hw]; rfl
          · rw [hq]; exact roundBinary64_onGrid q
        rcases hvw with h | h
        · rw [h]; exact hwg
        · rw [h, neg_onGrid]; exact hwg
      · rfl

/-- White space is neither a digit, nor a minus sign, nor a point. -/
theorem not_whiteSpace_of_number_start (c : Char)
    (h : isDecimalDigit c = true ∨ c = '-' ∨ c = '.') : isJSWhiteSpace c = false := by
  rcases h with h | h | h
  · unfold isDecimalDigit at h
    unfold isJSWhiteSpace
    simp only [Bool.and_eq_true, decide_eq_true_eq] at h
    simp only [Bool.or_eq_false_iff, Bool.and_eq_false_imp, decide_eq_false_iff_not,
      decide_eq_true_eq]
    omega
  · subst h; decide
  · subst h; decide

/-- A valid unsigned number text is read by the parser. -/
theorem parseUnsigned_isSome_of_valid (ar : Arith) (cs : List Char)
    (h : isValidUnsignedFloat cs = true) : ∃ v r, parseUnsigned ar cs = some (v, r) := by
  unfold parseUnsigned
  split
  · exact ⟨_, _, rfl⟩
  · unfold isValidUnsignedFloat at h
    rcases hd : takeDigits cs 0 0 with ⟨ip, ik, r1⟩
    simp only [hd] at h ⊢
    split at h
    · rcases hf : takeDigits _ 0 0 with ⟨fp, fk, r3⟩
      simp only [hf] at h ⊢
      have hfk : fk ≠ 0 := by
        simp only [Bool.and_eq_true, decide_eq_true_eq] at h
        exact h.1
      simp [hfk]
    · have hik : ik ≠ 0 := by
        simp only [Bool.and_eq_true, decide_eq_true_eq] at h
        exact h.1
      split
      · rename_i h0
        exact absurd h0 hik
      · exact ⟨_, _, rfl⟩

/-- A valid floating-point number text is read by `parseFloat` as a number, not `NaN`. -/
theorem parseFloat_ne_nan_of_valid (ar : Arith) (text : String)
    (h : isValidFloatingPointNumber text.data = true) : parseFloat ar text ≠ JSNum.nan := by
  have hsome : ∀ cs : List Char, isValidFloatingPointNumber cs = true →
      cs.dropWhile isJSWhiteSpace = cs ∧ ∃ v r, parseSigned ar cs = some (v, r) := by
    intro cs hcs
    unfold isValidFloatingPointNumber at hcs
    split at hcs
    · rename_i rest
      obtain ⟨v, r, hv⟩ := parseUnsigned_isSome_of_valid ar rest hcs
      refine ⟨?_, JSNum.neg v, r, ?_⟩
      · rw [List.dropWhile_cons, not_whiteSpace_of_number_start _ (Or.inr (Or.inl rfl))]
        simp
      · simp [parseSigned, hv]
    · rename_i hminus
      obtain ⟨v, r, hv⟩ := parseUnsigned_isSome_of_valid ar cs hcs
      cases cs with
      | nil => simp [isValidUnsignedFloat, takeDigits] at hcs
      | cons c rest =>
        have hc : isDecimalDigit c = true ∨ c = '-' ∨ c = '.' := by
          by_contra hno
          push_neg at hno
          have hd : isDecimalDigit c = false := by simpa using hno.1
          simp [isValidUnsignedFloat, takeDigits, hd] at hcs
          split at hcs
          · rename_i heq
            simp only [List.cons.injEq] at heq
            exact hno.2.2 heq.1
          · simp at hcs
        refine ⟨?_, v, r, ?_⟩
        · rw [List.dropWhile_cons, not_whiteSpace_of_number_start c hc]
          simp
        · unfold parseSigned
          split
          · rename_i rest2 heq
            simp only [List.cons.injEq] at heq
            have hd : isDecimalDigit '+' = false := by decide
            rw [← heq.1] at hd
            rcases hc with hc | hc | hc
            · rw [hc] at hd; simp at hd
            · rw [hc] at heq; simp at heq
            · rw [hc] at heq; simp at heq
          · rename_i rest2 heq
            exact absurd heq (hminus rest2)
          · exact hv
  obtain ⟨hdrop, v, r, hv⟩ := hsome text.data h
  unfold parseFloat
  rw [hdrop, hv]
  obtain ⟨w, hw, hvw⟩ := parseSigned_round ar _ v r hv
  have hwn : w ≠ JSNum.nan := by
    rcases hw with hw | ⟨q, hq⟩
    · rw [hw]; simp
    · rw [hq]; exact round_ne_nan ar q
  rcases hvw with h1 | h1
  · rw [h1]; exact hwn
  · rw [h1]; exact neg_ne_nan w hwn

/-! ## Removing by position -/

/-- Filtering out one position: inside the window `[k, k + length)` the filter erases
the element at that position, outside it keeps the whole list. -/
theorem filterIdx_ne_eq {α : Type} (index : Int) (l : List α) (k : Nat) :
    filterIdx (fun _ i => decide ((i : Int) ≠ index)) l k =
      if (k : Int) ≤ index ∧ index < (k : Int) + l.length then l.eraseIdx (index - k).toNat
      else l := by
  induction l generalizing k with
  | nil => simp [filterIdx]
  | cons a as ih =>
    simp only [filterIdx, ih (k + 1), List.length_cons]
    by_cases hk : (k : Int) = index
    · subst hk
      simp
    · have hd : decide ((k : Int) ≠ index) = true := by simpa using hk
      simp only [hd, if_true]
      push_cast
      split_ifs with hA hB hB
      · have he : (index - (k : Int)).toNat = (index - ((k : Int) + 1)).toNat + 1 := by omega
        rw [he, List.eraseIdx_cons_succ]
      · omega
      · omega
      · rfl

/-- The ledger after `removeExpense` in closed form. -/
theorem removeExpense_expenses (s : State) (index : Int) :
    (removeExpense index s).expenses =
      if 0 ≤ index ∧ index < s.expenses.length then s.expenses.eraseIdx index.toNat
      else s.expenses := by
  have h := filterIdx_ne_eq index s.expenses 0
  simpa [removeExpense] using h

/-- C1: for an index that is a position of the ledger, `removeExpense` leaves the ledger
without exactly the record at that position, one record shorter, the records before it at
the same positions and the records after it one position earlier; for an index that
is negative or at least the length, the ledger is unchanged. -/
theorem removeExpense_spec (s : State) (index : Int) :
    (∀ i : Nat, i < s.expenses.length → index = (i : Int) →
        (removeExpense index s).expenses = s.expenses.take i ++ s.expenses.drop (i + 1) ∧
        (removeExpense index s).expenses.length = s.expenses.length - 1 ∧
        (∀ j, j < i → (removeExpense index s).expenses[j]? = s.expenses[j]?) ∧
        (∀ j, i ≤ j → (removeExpense index s).expenses[j]? = s.expenses[j + 1]?)) ∧
    ((index < 0 ∨ (s.expenses.length : Int) ≤ index) →
        (removeExpense index s).expenses = s.expenses) := by
  constructor
  · intro i hi hidx
    have hr : 0 ≤ index ∧ index < s.expenses.length := by omega
    have he : (removeExpense index s).expenses = s.expenses.eraseIdx i := by
      rw [removeExpense_expenses, if_pos hr, hidx]; simp
    rw [he]
    refine ⟨List.eraseIdx_eq_take_drop_succ _ _, ?_, ?_, ?_⟩
    · rw [List.length_eraseIdx, if_pos hi]
    · intro j hj
      exact List.getElem?_eraseIdx_of_lt _ _ _ hj
    · intro j hj
      exact List.getElem?_eraseIdx_of_ge _ _ _ hj
  · intro h
    have hr : ¬ (0 ≤ index ∧ index < s.expenses.length) := by omega
    rw [removeExpense_expenses, if_neg hr]

/-- Witness for C1: removing position 1 of the two-record ledger leaves the first record. -/
theorem removeExpense_spec_witness :
    (1 < sampleState.expenses.length ∧ (1 : Int) = ((1 : Nat) : Int)) ∧
      (removeExpense 1 sampleState).expenses =
        sampleState.expenses.take 1 ++ sampleState.expenses.drop (1 + 1) ∧
      (removeExpense 1 sampleState).expenses.length = sampleState.expenses.length - 1 :=
  ⟨⟨by decide, by decide⟩,
    ((removeExpense_spec sampleState 1).1 1 (by decide) (by decide)).1,
    ((removeExpense_spec sampleState 1).1 1 (by decide) (by decide)).2.1⟩

/-! ## Adding a record -/

/-- The state after `addExpense` when both tests of the guard pass. -/
theorem addExpense_of_nonempty (ar : Arith) (today : String) (s : State)
    (hc : s.category ≠ "") (ha : s.amount ≠ "") :
    addExpense ar today s =
      { s with
        expenses := s.expenses ++ [⟨s.category, parseFloat ar s.amount, s.description, today,
          s.currency, s.paymentMethod⟩]
        userExpenses :=
          setProperty s.userExpenses s.user (lookupOrEmpty s.userExpenses s.user ++
            [⟨s.category, parseFloat ar s.amount, s.description, today, s.currency,
              s.paymentMethod⟩])
        category := ""
        amount := ""
        description := "" } := by
  simp [addExpense, hc, ha]

/-- The state after `addExpense` when one test of the guard fails. -/
theorem addExpense_of_empty (ar : Arith) (today : String) (s : State)
    (h : s.category = "" ∨ s.amount = "") : addExpense ar today s = s := by
  rcases h with h | h <;> simp [addExpense, h]

/-- C2: with a non-empty category and a non-empty amount text, `addExpense` leaves the old
ledger followed by exactly one new record: the length grows by one, every earlier
position holds the record it held, and the record at the end carries the category,
description, currency and payment method of the inputs and, as amount, the number
`parseFloat` reads from the amount text, in either arithmetic. -/
theorem addExpense_appends (ar : Arith) (today : String) (s : State)
    (hc : s.category ≠ "") (ha : s.amount ≠ "") :
    (addExpense ar today s).expenses =
        s.expenses ++ [⟨s.category, parseFloat ar s.amount, s.description, today, s.currency,
          s.paymentMethod⟩] ∧
      (addExpense ar today s).expenses.length = s.expenses.length + 1 ∧
      (∀ i, i < s.expenses.length → (addExpense ar today s).expenses[i]? = s.expenses[i]?) ∧
      (addExpense ar today s).expenses[s.expenses.length]? =
        some ⟨s.category, parseFloat ar s.amount, s.description, today, s.currency,
          s.paymentMethod⟩ := by
  rw [addExpense_of_nonempty ar today s hc ha]
  refine ⟨rfl, by simp, ?_, by simp⟩
  intro i hi
  simp [List.getElem?_append_left hi]

/-- Witness for C2: the filled-in form adds the record `Food`, 10, `lunch`. -/
theorem addExpense_appends_witness :
    (foodState.category ≠ "" ∧ foodState.amount ≠ "" ∧
        parseFloat Arith.binary64 foodState.amount = JSNum.fin 10) ∧
      (addExpense Arith.binary64 "1/1/2024" foodState).expenses =
        foodState.expenses ++ [⟨foodState.category, parseFloat Arith.binary64 foodState.amount,
          foodState.description, "1/1/2024", foodState.currency, foodState.paymentMethod⟩] :=
  ⟨by decide!,
    (addExpense_appends Arith.binary64 "1/1/2024" foodState (by decide) (by decide)).1⟩

/-- C3: when the category input or the amount input is the empty string, `addExpense`
returns the state it was given: ledger, per-user map, income and every input field are
the same before and after. -/
theorem addExpense_noop (ar : Arith) (today : String) (s : State)
    (h : s.category = "" ∨ s.amount = "") :
    addExpense ar today s = s ∧
      (addExpense ar today s).expenses = s.expenses ∧
      (addExpense ar today s).userExpenses = s.userExpenses ∧
      (addExpense ar today s).income = s.income ∧
      (addExpense ar today s).category = s.category ∧
      (addExpense ar today s).amount = s.amount ∧
      (addExpense ar today s).description = s.description ∧
      (addExpense ar today s).currency = s.currency ∧
      (addExpense ar today s).paymentMethod = s.paymentMethod := by
  rw [addExpense_of_empty ar today s h]
  simp

/-- Witness for C3: with an amount and no category nothing changes. -/
theorem addExpense_noop_witness :
    (emptyCategoryState.category = "" ∨ emptyCategoryState.amount = "") ∧
      addExpense Arith.binary64 "1/1/2024" emptyCategoryState = emptyCategoryState :=
  ⟨by decide, (addExpense_noop Arith.binary64 "1/1/2024" emptyCategoryState (by decide)).1⟩

/-- C6: when `addExpense` adds a record, the category, amount and description inputs are
the empty string afterwards, and the currency selection, the payment-method selection
and the income are what they were. -/
theorem addExpense_clears_inputs (ar : Arith) (today : String) (s : State)
    (hc : s.category ≠ "") (ha : s.amount ≠ "") :
    (addExpense ar today s).category = "" ∧
      (addExpense ar today s).amount = "" ∧
      (addExpense ar today s).description = "" ∧
      (addExpense ar today s).currency = s.currency ∧
      (addExpense ar today s).paymentMethod = s.paymentMethod ∧
      (addExpense ar today s).income = s.income := by
  rw [addExpense_of_nonempty ar today s hc ha]
  simp

/-- Witness for C6: after adding from the filled-in form the three text inputs are empty
and the selections are still `INR` and `Cash`. -/
theorem addExpense_clears_inputs_witness :
    (foodState.category ≠ "" ∧ foodState.amount ≠ "") ∧
      (addExpense Arith.binary64 "1/1/2024" foodState).category = "" ∧
      (addExpense Arith.binary64 "1/1/2024" foodState).amount = "" ∧
      (addExpense Arith.binary64 "1/1/2024" foodState).description = "" ∧
      (addExpense Arith.binary64 "1/1/2024" foodState).currency = "INR" ∧
      (addExpense Arith.binary64 "1/1/2024" foodState).paymentMethod = "Cash" ∧
      (addExpense Arith.binary64 "1/1/2024" foodState).income = JSValue.number (JSNum.fin 0) :=
  ⟨by decide,
    addExpense_clears_inputs Arith.binary64 "1/1/2024" foodState (by decide) (by decide)⟩

/-- A property of the amounts of the ledger survives one event, provided the amount an
`addExpense` that passes the guard stores has it. -/
theorem step_expenses_forall (ar : Arith) (Q : JSNum → Prop) (s : State) (e : Event)
    (hs : ∀ r ∈ s.expenses, Q r.amount)
    (hadd : ∀ today, e = Event.addExpense today → s.category ≠ "" → s.amount ≠ "" →
      Q (parseFloat ar s.amount)) :
    ∀ r ∈ (step ar s e).expenses, Q r.amount := by
  cases e with
  | addExpense today =>
    by_cases hg : s.category = "" ∨ s.amount = ""
    · simpa [step, addExpense_of_empty ar today s hg] using hs
    · have hc : s.category ≠ "" := fun h => hg (Or.inl h)
      have ha : s.amount ≠ "" := fun h => hg (Or.inr h)
      intro r hr
      simp only [step, addExpense_of_nonempty ar today s hc ha, List.mem_append,
        List.mem_singleton] at hr
      rcases hr with hr | hr
      · exact hs r hr
      · subst hr
        exact hadd today rfl hc ha
  | removeExpense index =>
    intro r hr
    simp only [step, removeExpense_expenses] at hr
    split_ifs at hr
    · exact hs r (List.mem_of_mem_eraseIdx hr)
    · exact hs r hr
  | setIncome v => simpa [step] using hs
  | setCategory v => simpa [step] using hs
  | setAmount v => simpa [step] using hs
  | setDescription v => simpa [step] using hs
  | setCurrency v => simpa [step] using hs
  | setPaymentMethod v => simpa [step] using hs
  | toggleDarkMode => simpa [step] using hs

/-- The value of a number field is the empty string or a valid floating-point number. -/
theorem numberFieldValue_cases (typed : String) :
    numberFieldValue typed = "" ∨
      isValidFloatingPointNumber (numberFieldValue typed).data = true := by
  unfold numberFieldValue
  split_ifs with h
  · exact Or.inr h
  · exact Or.inl rfl

/-- The amount text stays the empty string or a valid floating-point number over one
event. -/
theorem step_amount_valid (ar : Arith) (s : State) (e : Event)
    (hs : s.amount = "" ∨ isValidFloatingPointNumber s.amount.data = true) :
    (step ar s e).amount = "" ∨
      isValidFloatingPointNumber (step ar s e).amount.data = true := by
  cases e with
  | addExpense today =>
    by_cases hg : s.category = "" ∨ s.amount = ""
    · simpa [step, addExpense_of_empty ar today s hg] using hs
    · have hc : s.category ≠ "" := fun h => hg (Or.inl h)
      have ha : s.amount ≠ "" := fun h => hg (Or.inr h)
      left
      simp [step, addExpense_of_nonempty ar today s hc ha]
  | removeExpense index => simpa [step, removeExpense] using hs
  | setIncome v => simpa [step] using hs
  | setCategory v => simpa [step] using hs
  | setAmount v => simpa [step] using numberFieldValue_cases v
  | setDescription v => simpa [step] using hs
  | setCurrency v => simpa [step] using hs
  | setPaymentMethod v => simpa [step] using hs
  | toggleDarkMode => simpa [step] using hs

/-- Along events the amount text stays the empty string or a valid number text, and no
amount of the ledger becomes `NaN`. -/
theorem foldl_step_number (ar : Arith) (events : List Event) (s : State)
    (h1 : s.amount = "" ∨ isValidFloatingPointNumber s.amount.data = true)
    (h2 : ∀ r ∈ s.expenses, r.amount ≠ JSNum.nan) :
    ((events.foldl (step ar) s).amount = "" ∨
        isValidFloatingPointNumber (events.foldl (step ar) s).amount.data = true) ∧
      ∀ r ∈ (events.foldl (step ar) s).expenses, r.amount ≠ JSNum.nan := by
  induction events generalizing s with
  | nil => exact ⟨h1, h2⟩
  | cons e es ih =>
    simp only [List.foldl_cons]
    apply ih _ (step_amount_valid ar s e h1)
    exact step_expenses_forall ar (fun v => v ≠ JSNum.nan) s e h2
      (fun _ _ _ ha => parseFloat_ne_nan_of_valid ar s.amount (h1.resolve_left ha))

/-- C4, refuted as stated: after typing the category `Food` and the amount `1e400`, a
number text the amount field accepts, the amount text does not parse to a finite number
(it parses to `Infinity`), yet `addExpense` makes the ledger one record longer; and the
ledger reached by then adding holds a record whose amount is `Infinity`. -/
theorem addExpense_overflow_counterexample :
    ¬ (∀ (events : List Event) (today : String),
        (parseFloat Arith.binary64 (run Arith.binary64 events).amount).isFinite = false →
        (addExpense Arith.binary64 today (run Arith.binary64 events)).expenses.length =
          (run Arith.binary64 events).expenses.length) ∧
      ¬ (∀ (events : List Event), ∀ r ∈ (run Arith.binary64 events).expenses,
        r.amount.isFinite = true) := by
  constructor
  · intro h
    have h1 := h overflowTyping "1/1/2024" (by decide!)
    revert h1
    decide!
  · intro h
    have h1 := h overflowEvents ⟨"Food", JSNum.posInf, "", "1/1/2024", "INR", "Cash"⟩
      (by decide!)
    revert h1
    decide!

/-- C4, amended: in every state reached from the initial one, `addExpense` leaves the
length of the ledger unchanged exactly when the category input or the amount input is the
empty string, and it does so whenever the amount text does not parse to a number
(`parseFloat` gives `NaN`); a typed text that is not a valid floating-point number
reaches the handler as the empty string, and `addExpense` then returns the state it was
given; no amount of a reached ledger is `NaN`. -/
theorem addExpense_rejects_non_number (ar : Arith) (events : List Event)
    (today typed : String) :
    ((addExpense ar today (run ar events)).expenses.length = (run ar events).expenses.length ↔
        ((run ar events).category = "" ∨ (run ar events).amount = "")) ∧
      (parseFloat ar (run ar events).amount = JSNum.nan →
        (addExpense ar today (run ar events)).expenses.length =
          (run ar events).expenses.length) ∧
      (isValidFloatingPointNumber typed.data = false →
        (step ar (run ar events) (Event.setAmount typed)).amount = "" ∧
        addExpense ar today (step ar (run ar events) (Event.setAmount typed)) =
          step ar (run ar events) (Event.setAmount typed)) ∧
      (∀ r ∈ (run ar events).expenses, r.amount ≠ JSNum.nan) := by
  have hinv := foldl_step_number ar events initialState (Or.inl rfl) (by simp [initialState])
  refine ⟨?_, ?_, ?_, hinv.2⟩
  · constructor
    · intro h
      by_contra hg
      have hc : (run ar events).category ≠ "" := fun h => hg (Or.inl h)
      have ha : (run ar events).amount ≠ "" := fun h => hg (Or.inr h)
      rw [addExpense_of_nonempty ar today _ hc ha] at h
      simp at h
    · intro h
      rw [addExpense_of_empty ar today _ h]
  · intro hnan
    have hempty : (run ar events).amount = "" := by
      rcases hinv.1 with h | h
      · exact h
      · exact absurd hnan (parseFloat_ne_nan_of_valid ar _ h)
    rw [addExpense_of_empty ar today _ (Or.inr hempty)]
  · intro hbad
    have hval : (step ar (run ar events) (Event.setAmount typed)).amount = "" := by
      simp [step, numberFieldValue, hbad]
    exact ⟨hval, addExpense_of_empty ar today _ (Or.inr hval)⟩

/-- Witness for C4 amended: the typed text `abc` reaches the handler as the empty string
and the add is rejected. -/
theorem addExpense_rejects_non_number_witness :
    isValidFloatingPointNumber "abc".data = false ∧
      (step Arith.binary64 (run Arith.binary64 [Event.setCategory "Food"])
        (Event.setAmount "abc")).amount = "" ∧
      addExpense Arith.binary64 "1/1/2024"
          (step Arith.binary64 (run Arith.binary64 [Event.setCategory "Food"])
            (Event.setAmount "abc")) =
        step Arith.binary64 (run Arith.binary64 [Event.setCategory "Food"])
          (Event.setAmount "abc") :=
  ⟨by decide,
    (addExpense_rejects_non_number Arith.binary64 [Event.setCategory "Food"] "1/1/2024"
      "abc").2.2.1 (by decide)⟩

/-- C5, refuted as stated: a category of one space is empty after trimming, yet
`addExpense` with the amount text `5` changes the ledger. -/
theorem addExpense_blank_category_counterexample :
    ¬ (∀ (today : String) (s : State), trimBoth s.category.data = [] →
        (addExpense Arith.binary64 today s).expenses = s.expenses) := by
  intro h
  have h1 := h "1/1/2024" blankCategoryState (by decide)
  revert h1
  decide!

/-- C5, amended: `addExpense` tests the category as typed, without trimming.  With the
category input the empty string it returns the state it was given, whatever the amount
input is; with a category that is non-empty, also when it is white space only, and a
non-empty amount text it appends one record carrying that category unchanged. -/
theorem addExpense_category_untrimmed (ar : Arith) (today : String) (s : State) :
    (s.category = "" → addExpense ar today s = s) ∧
      (s.category ≠ "" → s.amount ≠ "" →
        (addExpense ar today s).expenses =
          s.expenses ++ [⟨s.category, parseFloat ar s.amount, s.description, today, s.currency,
            s.paymentMethod⟩]) := by
  constructor
  · intro h
    exact addExpense_of_empty ar today s (Or.inl h)
  · intro hc ha
    rw [addExpense_of_nonempty ar today s hc ha]

/-- Witness for C5 amended: the category of one space is stored as it is. -/
theorem addExpense_category_untrimmed_witness :
    (trimBoth blankCategoryState.category.data = [] ∧ blankCategoryState.category ≠ "" ∧
        blankCategoryState.amount ≠ "") ∧
      (addExpense Arith.binary64 "1/1/2024" blankCategoryState).expenses =
        blankCategoryState.expenses ++ [⟨blankCategoryState.category,
          parseFloat Arith.binary64 blankCategoryState.amount, blankCategoryState.description,
          "1/1/2024", blankCategoryState.currency, blankCategoryState.paymentMethod⟩] :=
  ⟨by decide,
    (addExpense_category_untrimmed Arith.binary64 "1/1/2024" blankCategoryState).2
      (by decide) (by decide)⟩

/-! ## Totals -/

/-- The reduce of `totalSpent` over finite amounts, started at a finite value, is the
exact sum. -/
theorem foldl_add_of_finite (l : List Expense) (a : ℚ)
    (hl : ∀ r ∈ l, r.amount.isFinite = true) :
    l.foldl (fun sum expense => JSNum.add Arith.exact sum expense.amount) (JSNum.fin a) =
      JSNum.fin (a + (l.map (fun r => amountValue r.amount)).sum) := by
  induction l generalizing a with
  | nil => simp
  | cons r rs ih =>
    have hr : r.amount.isFinite = true := hl r (List.mem_cons_self _ _)
    have hrs : ∀ x ∈ rs, x.amount.isFinite = true :=
      fun x hx => hl x (List.mem_cons_of_mem _ hx)
    cases hq : r.amount with
    | fin q =>
      have hadd : JSNum.add Arith.exact (JSNum.fin a) (JSNum.fin q) = JSNum.fin (a + q) := rfl
      have hval : amountValue (JSNum.fin q) = q := rfl
      simp only [List.foldl_cons, hq, hadd, List.map_cons, List.sum_cons, hval]
      rw [ih (a + q) hrs, add_assoc]
    | nan => simp [hq, JSNum.isFinite] at hr
    | posInf => simp [hq, JSNum.isFinite] at hr
    | negInf => simp [hq, JSNum.isFinite] at hr

/-- The total of a ledger of finite amounts is their exact sum, in exact arithmetic. -/
theorem totalSpent_of_finite (l : List Expense) (hl : ∀ r ∈ l, r.amount.isFinite = true) :
    totalSpent Arith.exact l = JSNum.fin ((l.map (fun r => amountValue r.amount)).sum) := by
  have h := foldl_add_of_finite l 0 hl
  simpa [totalSpent] using h

/-- Erasing one position takes its value out of the sum. -/
theorem sum_map_eraseIdx (f : Expense → ℚ) (l : List Expense) (i : Nat) (hi : i < l.length) :
    ((l.eraseIdx i).map f).sum = (l.map f).sum - f l[i] := by
  induction l generalizing i with
  | nil => simp at hi
  | cons r rs ih =>
    cases i with
    | zero => simp
    | succ j =>
      have hj : j < rs.length := by simpa using hi
      simp only [List.eraseIdx_cons_succ, List.map_cons, List.sum_cons, List.getElem_cons_succ,
        ih j hj]
      ring

/-- A ledger of finite amounts stays one along a sequence of valid events. -/
theorem validFrom_finite (events : List Event) (s : State)
    (hs : ∀ r ∈ s.expenses, r.amount.isFinite = true)
    (hv : validFrom Arith.exact s events = true) :
    ∀ r ∈ (events.foldl (step Arith.exact) s).expenses, r.amount.isFinite = true := by
  induction events generalizing s with
  | nil => simpa using hs
  | cons e es ih =>
    simp only [validFrom, Bool.and_eq_true] at hv
    simp only [List.foldl_cons]
    apply ih _ _ hv.2
    apply step_expenses_forall Arith.exact (fun v => v.isFinite = true) s e hs
    intro today he _ _
    subst he
    have h := hv.1
    simp only [validEvent, Bool.and_eq_true] at h
    exact h.2

/-- C7: over exact arithmetic, after any sequence of valid events from the initial state (adds that pass the
guard with an amount text parsing to a finite number, removes at a position of the
ledger, input edits), `totalSpent` is the exact sum of the amounts of the records in the
ledger, `0` for the empty ledger; a further valid `addExpense` makes it larger by exactly
the amount added, and a `removeExpense` at a position of the ledger makes it smaller by
exactly the amount of the record at that position. -/
theorem totalSpent_valid_run (events : List Event) (hv : validRun Arith.exact events = true) :
    totalSpent Arith.exact initialState.expenses = JSNum.fin 0 ∧
      (∀ r ∈ (run Arith.exact events).expenses, r.amount.isFinite = true) ∧
      totalSpent Arith.exact (run Arith.exact events).expenses =
        JSNum.fin (((run Arith.exact events).expenses.map
          (fun r => amountValue r.amount)).sum) ∧
      (∀ (today : String) (q : ℚ), (run Arith.exact events).category ≠ "" →
        (run Arith.exact events).amount ≠ "" →
        parseFloat Arith.exact (run Arith.exact events).amount = JSNum.fin q →
        totalSpent Arith.exact (addExpense Arith.exact today (run Arith.exact events)).expenses =
          JSNum.fin (amountValue (totalSpent Arith.exact (run Arith.exact events).expenses) +
            q)) ∧
      (∀ (i : Nat) (hi : i < (run Arith.exact events).expenses.length),
        totalSpent Arith.exact (removeExpense (i : Int) (run Arith.exact events)).expenses =
          JSNum.fin (amountValue (totalSpent Arith.exact (run Arith.exact events).expenses) -
            amountValue ((run Arith.exact events).expenses[i]).amount)) := by
  have hfin : ∀ r ∈ (run Arith.exact events).expenses, r.amount.isFinite = true :=
    validFrom_finite events initialState (by simp [initialState]) hv
  have htot := totalSpent_of_finite (run Arith.exact events).expenses hfin
  refine ⟨by simp [totalSpent, initialState], hfin, htot, ?_, ?_⟩
  · intro today q hc ha hq
    have hfin2 : ∀ r ∈ (addExpense Arith.exact today (run Arith.exact events)).expenses,
        r.amount.isFinite = true := by
      rw [addExpense_of_nonempty Arith.exact today _ hc ha]
      intro r hr
      simp only [List.mem_append, List.mem_singleton] at hr
      rcases hr with hr | hr
      · exact hfin r hr
      · subst hr
        simp [hq, JSNum.isFinite]
    rw [totalSpent_of_finite _ hfin2, htot, addExpense_of_nonempty Arith.exact today _ hc ha]
    simp [hq, amountValue]
  · intro i hi
    have hr : 0 ≤ (i : Int) ∧ (i : Int) < (run Arith.exact events).expenses.length := by omega
    have he : (removeExpense (i : Int) (run Arith.exact events)).expenses =
        (run Arith.exact events).expenses.eraseIdx i := by
      rw [removeExpense_expenses, if_pos hr]; simp
    have hfin2 : ∀ r ∈ (removeExpense (i : Int) (run Arith.exact events)).expenses,
        r.amount.isFinite = true := by
      rw [he]
      intro r hr
      exact hfin r (List.mem_of_mem_eraseIdx hr)
    rw [totalSpent_of_finite _ hfin2, htot, he, sum_map_eraseIdx _ _ i hi]
    simp [amountValue]

/-- Witness for C7: typing `Food` and `10`, adding, typing `Bus` and `5`, adding, and
removing position 0 is a valid run; its total is 5. -/
theorem totalSpent_valid_run_witness :
    validRun Arith.exact sampleEvents = true ∧
      totalSpent Arith.exact (run Arith.exact sampleEvents).expenses = JSNum.fin 5 ∧
      totalSpent Arith.exact (run Arith.exact sampleEvents).expenses =
        JSNum.fin (((run Arith.exact sampleEvents).expenses.map
          (fun r => amountValue r.amount)).sum) :=
  ⟨by decide, by decide!, (totalSpent_valid_run sampleEvents (by decide)).2.2.1⟩

/-! ## The balance in binary64 -/

/-- Subtracting in binary64 and comparing with zero is comparing the operands: for
finite operands on the grid of doubles the rounded difference has the sign of the exact
one, and the infinities and `NaN` behave alike on both sides. -/
theorem lt_sub_zero_binary64 (x y : JSNum) (hx : x.onGrid = true) (hy : y.onGrid = true) :
    JSNum.lt (JSNum.sub Arith.binary64 x y) (JSNum.fin 0) = JSNum.lt x y := by
  cases x with
  | nan => cases y <;> simp [JSNum.sub, JSNum.add, JSNum.neg, JSNum.lt]
  | posInf => cases y <;> simp [JSNum.sub, JSNum.add, JSNum.neg, JSNum.lt]
  | negInf => cases y <;> simp [JSNum.sub, JSNum.add, JSNum.neg, JSNum.lt]
  | fin a =>
    cases y with
    | nan => simp [JSNum.sub, JSNum.add, JSNum.neg, JSNum.lt]
    | posInf => simp [JSNum.sub, JSNum.add, JSNum.neg, JSNum.lt]
    | negInf => simp [JSNum.sub, JSNum.add, JSNum.neg, JSNum.lt]
    | fin b =>
      have ha : a.den ∣ 2 ^ 1074 := by simpa [JSNum.onGrid] using hx
      have hb : b.den ∣ 2 ^ 1074 := by simpa [JSNum.onGrid] using hy
      obtain ⟨ka, hka⟩ := exists_int_of_den_dvd a ha
      obtain ⟨kb, hkb⟩ := exists_int_of_den_dvd b hb
      have hgrid : ∃ k : Int, (a + -b) * 2 ^ 1074 = (k : ℚ) := by
        refine ⟨ka - kb, ?_⟩
        push_cast
        rw [← hka, ← hkb]
        ring
      show JSNum.lt (roundBinary64 (a + -b)) (JSNum.fin 0) = decide (a < b)
      rw [roundBinary64_lt_zero _ hgrid]
      exact decide_eq_decide.mpr ⟨fun h => by linarith, fun h => by linarith⟩

/-- A sum in binary64 is on the grid of doubles. -/
theorem add_onGrid (x y : JSNum) : (JSNum.add Arith.binary64 x y).onGrid = true := by
  cases x <;> cases y <;>
    first
    | rfl
    | exact roundBinary64_onGrid _

/-- The total in binary64 is on the grid of doubles, whatever the ledger holds. -/
theorem totalSpent_onGrid (expenses : List Expense) :
    (totalSpent Arith.binary64 expenses).onGrid = true := by
  have h : ∀ (l : List Expense) (acc : JSNum), acc.onGrid = true →
      (l.foldl (fun sum expense => JSNum.add Arith.binary64 sum expense.amount) acc).onGrid =
        true := by
    intro l
    induction l with
    | nil => intro acc hacc; exact hacc
    | cons r rs ih =>
      intro acc _
      simp only [List.foldl_cons]
      exact ih _ (add_onGrid acc r.amount)
  exact h expenses (JSNum.fin 0) (by simp [JSNum.onGrid])

/-- C8: in the arithmetic of doubles, for every income whose number is on the grid of
doubles (as every double is, and as the number of every income text is) and every ledger,
`remainingBalance` is the income, converted to a number, minus `totalSpent` of the
ledger, so two states with the same income and ledger have the same balance; and the
balance is flagged as negative exactly when `totalSpent > income` holds. -/
theorem remainingBalance_spec (income : JSValue) (expenses : List Expense)
    (hinc : (toNumber Arith.binary64 income).onGrid = true) :
    remainingBalance Arith.binary64 income expenses =
        JSNum.sub Arith.binary64 (toNumber Arith.binary64 income)
          (totalSpent Arith.binary64 expenses) ∧
      (∀ s t : State, s.income = t.income → s.expenses = t.expenses →
        remainingBalance Arith.binary64 s.income s.expenses =
          remainingBalance Arith.binary64 t.income t.expenses) ∧
      (∀ text : String, (toNumber Arith.binary64 (JSValue.string text)).onGrid = true) ∧
      (balanceIsNegative Arith.binary64 income expenses = true ↔
        JSNum.gt (totalSpent Arith.binary64 expenses) (toNumber Arith.binary64 income) =
          true) := by
  refine ⟨rfl, ?_, stringToNumber_onGrid, ?_⟩
  · intro s t h1 h2
    rw [h1, h2]
  · unfold balanceIsNegative remainingBalance JSNum.gt
    rw [lt_sub_zero_binary64 _ _ hinc (totalSpent_onGrid expenses)]

/-- Witness for C8: with the income text `0.3` and the amounts `0.1` and `0.2` the total
is the double `0.30000000000000004`, which exceeds the income, and the balance is
flagged; with the initial income 0 and the empty ledger it is not. -/
theorem remainingBalance_spec_witness :
    (toNumber Arith.binary64 (JSValue.string "0.3")).onGrid = true ∧
      numberToString Arith.binary64 (totalSpent Arith.binary64 decimalLedger) =
        "0.30000000000000004" ∧
      JSNum.gt (totalSpent Arith.binary64 decimalLedger)
        (toNumber Arith.binary64 (JSValue.string "0.3")) = true ∧
      balanceIsNegative Arith.binary64 (JSValue.string "0.3") decimalLedger = true ∧
      balanceIsNegative Arith.binary64 initialState.income initialState.expenses = false := by
  exact ⟨by decide!, by decide!, by decide!,
    (remainingBalance_spec (JSValue.string "0.3") decimalLedger (by decide!)).2.2.2.2
      (by decide!),
    by decide!⟩

/-! ## CSV export -/

/-- Joining a list of texts onto an accumulator is the accumulator followed by the join. -/
theorem foldl_append_eq (l : List String) (acc : String) :
    l.foldl (fun r t => r ++ t) acc = acc ++ String.join l := by
  induction l generalizing acc with
  | nil => simp [String.join]
  | cons a as ih =>
    have h1 := ih (acc ++ a)
    have h2 := ih ("" ++ a)
    simp only [String.join, List.foldl_cons] at h2 ⊢
    rw [h1, h2, String.empty_append, String.append_assoc]
    rfl

/-- The join of a list with a text in front. -/
theorem join_cons_eq (a : String) (l : List String) :
    String.join (a :: l) = a ++ String.join l := by
  have h := foldl_append_eq l ("" ++ a)
  simpa [String.join] using h

/-- The loop of `exportToCSV`, started on any text at any position, appends the rows in
ledger order. -/
theorem forEachIdx_csv (ar : Arith) (l : List Expense) (i : Nat) (acc : String) :
    forEachIdx
      (fun csv exp _ =>
        csv ++ (exp.category ++ "," ++ numberToString ar exp.amount ++ "," ++ exp.description ++ "," ++
          exp.date ++ "," ++ exp.currency ++ "," ++ exp.paymentMethod ++ "\n"))
      l i acc =
    acc ++ String.join (l.map (fun e =>
      String.intercalate "," [e.category, numberToString ar e.amount, e.description, e.date,
        e.currency, e.paymentMethod] ++ "\n")) := by
  induction l generalizing i acc with
  | nil => simp [forEachIdx, String.join]
  | cons r rs ih =>
    simp only [forEachIdx, List.map_cons, join_cons_eq, ih]
    rw [String.append_assoc]
    rfl

/-- C9: the text `exportToCSV` builds is the header line followed by one row per record, in
ledger order, the row of a record being its category, amount, description, date,
currency and payment method joined by commas, unquoted, and ended by a line feed; for
the empty ledger it is the header line alone, and for the two-record ledger of the
example it is the three lines given. -/
theorem exportToCSV_spec (ar : Arith) (s : State) :
    (exportToCSV ar s).content =
        "Category,Amount,Description,Date,Currency,Payment Method\n" ++
          String.join (s.expenses.map (fun e =>
            String.intercalate "," [e.category, numberToString ar e.amount, e.description,
              e.date, e.currency, e.paymentMethod] ++ "\n")) ∧
      (s.expenses.map (fun e =>
          String.intercalate "," [e.category, numberToString ar e.amount, e.description, e.date,
            e.currency, e.paymentMethod] ++ "\n")).length = s.expenses.length ∧
      (exportToCSV ar initialState).content =
        "Category,Amount,Description,Date,Currency,Payment Method\n" ∧
      (exportToCSV ar sampleState).content =
        "Category,Amount,Description,Date,Currency,Payment Method\n" ++
          "Food,10,lunch,1/1/2024,INR,Cash\n" ++ "Transport,5,,1/1/2024,INR,Card\n" := by
  refine ⟨?_, by simp, by cases ar <;> decide!, by cases ar <;> decide!⟩
  simp only [exportToCSV, csvContent, forEachIdx_csv]
  rfl

/-! ## PDF export -/

/-- The loop of `exportToPDF`, started at any position with any calls made and any finite
`yPos`, appends one text call per record and moves `yPos` down by 10 each time. -/
theorem forEachIdx_pdf (ar : Arith) (l : List Expense) (i : Nat) (calls : List DocCall)
    (y : ℚ) :
    forEachIdx
      (fun (st : List DocCall × JSNum) exp index =>
        (st.1 ++ [DocCall.text (pdfLine ar exp index) (JSNum.fin 20) st.2],
          JSNum.add Arith.exact st.2 (JSNum.fin 10)))
      l i (calls, JSNum.fin y) =
    (calls ++ (l.enumFrom i).map (fun p =>
        DocCall.text (pdfLine ar p.2 p.1) (JSNum.fin 20)
          (JSNum.fin (y + 10 * ((p.1 : ℚ) - i)))),
      JSNum.fin (y + 10 * l.length)) := by
  induction l generalizing i calls y with
  | nil => simp [forEachIdx]
  | cons r rs ih =>
    have hadd : JSNum.add Arith.exact (JSNum.fin y) (JSNum.fin 10) = JSNum.fin (y + 10) := rfl
    simp only [forEachIdx, hadd, ih, List.enumFrom_cons, List.map_cons, List.length_cons,
      List.append_assoc, List.singleton_append]
    refine Prod.ext ?_ ?_
    · simp only [sub_self, mul_zero, add_zero]
      congr 2
      apply List.map_congr_left
      intro p _
      congr 2
      push_cast
      ring
    · simp only
      congr 1
      push_cast
      ring

/-- C10: `exportToPDF` makes, in order, the text call of the title `Expense Report` at
(20, 20), then for each position `k` of the ledger one text call at x = 20 and
y = 30 + 10 k with the line `<k+1>. <category> - <currency> <amount> (<description>)
[<paymentMethod>]` of the record at `k`, then the save; there are `n + 1` text calls for `n`
records and no page is ever added. -/
theorem exportToPDF_spec (ar : Arith) (s : State) :
    (exportToPDF ar s).length = s.expenses.length + 2 ∧
      (exportToPDF ar s)[0]? =
        some (DocCall.text "Expense Report" (JSNum.fin 20) (JSNum.fin 20)) ∧
      (∀ (k : Nat) (hk : k < s.expenses.length),
        (exportToPDF ar s)[k + 1]? =
          some (DocCall.text
            (numberToString ar (JSNum.fin ((k : ℚ) + 1)) ++ ". " ++ (s.expenses[k]).category ++
              " - " ++ (s.expenses[k]).currency ++ " " ++
              numberToString ar (s.expenses[k]).amount ++ " (" ++ (s.expenses[k]).description ++
              ") [" ++ (s.expenses[k]).paymentMethod ++ "]")
            (JSNum.fin 20) (JSNum.fin (30 + 10 * (k : ℚ))))) ∧
      (exportToPDF ar s)[s.expenses.length + 1]? = some (DocCall.save "expenses.pdf") ∧
      DocCall.addPage ∉ exportToPDF ar s := by
  have h : exportToPDF ar s =
      DocCall.text "Expense Report" (JSNum.fin 20) (JSNum.fin 20) ::
        ((s.expenses.enumFrom 0).map (fun p =>
          DocCall.text (pdfLine ar p.2 p.1) (JSNum.fin 20)
            (JSNum.fin (30 + 10 * ((p.1 : ℚ) - (0 : Nat))))) ++
          [DocCall.save "expenses.pdf"]) := by
    simp only [exportToPDF, forEachIdx_pdf]
    simp
  rw [h]
  refine ⟨by simp, by simp, ?_, ?_, ?_⟩
  · intro k hk
    rw [List.getElem?_cons_succ, List.getElem?_append_left (by simpa using hk),
      List.getElem?_map, List.getElem?_enumFrom]
    simp only [List.getElem?_eq_getElem hk, Option.map_some', Nat.cast_zero, sub_zero, zero_add]
    rfl
  · rw [List.getElem?_cons_succ, List.getElem?_append_right (by simp)]
    simp
  · simp

/-- Witness for C10: the two-record ledger gives the title, the lines numbered 1 and 2 at
y = 30 and y = 40, and the save. -/
theorem exportToPDF_spec_witness :
    1 < sampleState.expenses.length ∧
      exportToPDF Arith.binary64 sampleState =
        [DocCall.text "Expense Report" (JSNum.fin 20) (JSNum.fin 20),
          DocCall.text "1. Food - INR 10 (lunch) [Cash]" (JSNum.fin 20) (JSNum.fin 30),
          DocCall.text "2. Transport - INR 5 () [Card]" (JSNum.fin 20) (JSNum.fin 40),
          DocCall.save "expenses.pdf"] ∧
      (exportToPDF Arith.binary64 sampleState)[1 + 1]? =
        some (DocCall.text
          (numberToString Arith.binary64 (JSNum.fin (((1 : Nat) : ℚ) + 1)) ++ ". " ++
            (sampleState.expenses[1]).category ++
            " - " ++ (sampleState.expenses[1]).currency ++ " " ++
            numberToString Arith.binary64 (sampleState.expenses[1]).amount ++ " (" ++
            (sampleState.expenses[1]).description ++
            ") [" ++ (sampleState.expenses[1]).paymentMethod ++ "]")
          (JSNum.fin 20) (JSNum.fin (30 + 10 * ((1 : Nat) : ℚ)))) :=
  ⟨by decide, by decide!, (exportToPDF_spec Arith.binary64 sampleState).2.2.1 1 (by decide)⟩

end ExpenseTracker
